import Mathlib

/-!
Verification of the copyright-header parsing, classification, and update
engine of the `copywrite` tool.

The Go sources are shallowly embedded over `List Char` (Go operates on
bytes; all relevant data is ASCII).  Each definition mirrors one function
of `src/licensecheck/update.go` or `src/addlicense/main.go`; external
signals (current year, git commit years, the rendered license template)
are passed as explicit parameters.
-/

namespace Copywrite

/-- ASCII lowercase conversion, as `strings.ToLower` / `bytes.ToLower` act on ASCII. -/
def toLowerChar (c : Char) : Char :=
  if 'A' ≤ c ∧ c ≤ 'Z' then Char.ofNat (c.toNat + 32) else c

def toLowerStr (s : List Char) : List Char := s.map toLowerChar

/-- Whitespace as recognized by Go `unicode.IsSpace` on ASCII (used by `strings.TrimSpace`). -/
def isUniSpace (c : Char) : Bool :=
  c = ' ' ∨ c = '\t' ∨ c = '\n' ∨ c = '\x0b' ∨ c = '\x0c' ∨ c = '\r'

/-- Whitespace matched by the Go regexp class `\s` (`[\t\n\f\r ]`). -/
def isRegexSpace (c : Char) : Bool :=
  c = ' ' ∨ c = '\t' ∨ c = '\n' ∨ c = '\x0c' ∨ c = '\r'

/-- Word characters for the Go regexp word boundary `\b` (`[0-9A-Za-z_]`). -/
def isWordChar (c : Char) : Bool :=
  ('0' ≤ c ∧ c ≤ '9') ∨ ('a' ≤ c ∧ c ≤ 'z') ∨ ('A' ≤ c ∧ c ≤ 'Z') ∨ c = '_'

def isDigitChar (c : Char) : Bool := '0' ≤ c ∧ c ≤ '9'

def trimSpace (s : List Char) : List Char :=
  ((s.dropWhile isUniSpace).reverse.dropWhile isUniSpace).reverse

/-- `strings.Trim(s, "-, ")`: strip leading and trailing `-`, `,`, ` `. -/
def trimSepCutset (s : List Char) : List Char :=
  let inCut : Char → Bool := fun c => c = '-' ∨ c = ',' ∨ c = ' '
  ((s.dropWhile inCut).reverse.dropWhile inCut).reverse

/-- `strings.Index`: byte index of the first occurrence of `sub` in the suffix of `s`
starting at offset `i` (the offset accumulates in the second argument). -/
def indexOfSubFrom (sub : List Char) : List Char → Nat → Option Nat
  | [], i => if sub.isPrefixOf ([] : List Char) then some i else none
  | c :: r, i => if sub.isPrefixOf (c :: r) then some i else indexOfSubFrom sub r (i + 1)

def indexOfSub (sub s : List Char) : Option Nat := indexOfSubFrom sub s 0

/-- `strings.Contains(s, sub)`. -/
def containsSub (s sub : List Char) : Bool := (indexOfSub sub s).isSome

/-- `filepath.Base`: final path component (sufficient model for slash-separated paths). -/
def baseName (path : List Char) : List Char :=
  let b := (path.reverse.takeWhile (fun c => c ≠ '/')).reverse
  if b = [] then ['.'] else b

/-- The comment prefix table of `update.go`, in source order (most specific first). -/
def commentPrefixes : List (List Char) :=
  ["<%/* ".toList, "<%/*".toList,
   "(** ".toList, "(**".toList,
   "/** ".toList, "/**".toList,
   "<!-- ".toList, "<!--".toList,
   "\x7b\x7b! ".toList, "\x7b\x7b!".toList,
   "/* ".toList, "/*".toList,
   ";; ".toList, ";;".toList,
   "-- ".toList, "--".toList,
   "// ".toList, "//".toList,
   "# ".toList, "#".toList,
   "% ".toList, "%".toList,
   "* ".toList, "*".toList]

/-- The prefix-search loop of `parseCopyrightLine`: earliest occurrence of any
marker wins; on equal indices the earlier table entry wins (strict `<` in source). -/
def findBestPfx (line : List Char) : Option (Nat × List Char) :=
  commentPrefixes.foldl
    (fun best p =>
      match indexOfSub p line with
      | none => best
      | some idx =>
        match best with
        | none => some (idx, p)
        | some (bi, bp) => if idx < bi then some (idx, p) else some (bi, bp))
    none

/-- The backward scan that widens the prefix start over contiguous spaces/tabs
immediately before the matched marker. -/
def backtrackWs (line : List Char) : Nat → Nat
  | 0 => 0
  | i + 1 =>
    if line.getD i 'A' = ' ' ∨ line.getD i 'A' = '\t' then backtrackWs line i
    else i + 1

/-- `CopyrightInfo` of `update.go`. -/
structure CopyrightInfo where
  lineNumber : Nat
  originalLine : List Char
  holder : List Char
  startYear : Int
  endYear : Int
  prefixStr : List Char
  trailingText : List Char
  prefixIndex : Nat
deriving Repr, DecidableEq

/-- Value of a run of ASCII digits (`strconv.Atoi` on a 4-digit run always succeeds). -/
def digitsVal (s : List Char) : Int :=
  Int.ofNat (s.foldl (fun acc c => acc * 10 + (c.toNat - '0'.toNat)) 0)

/-- Position `i` starts a match of the Go regexp `\b(\d{4})\b` in `s`.
Since every match has length 4 and any two candidate positions closer than 4
apart contradict the `\b` conditions, the leftmost non-overlapping matches of
`FindAllStringIndex` are exactly all candidate positions. -/
def isYearRunAt (s : List Char) (i : Nat) : Bool :=
  decide (i + 4 ≤ s.length) &&
  ((s.drop i).take 4).all isDigitChar &&
  (decide (i = 0) || ! isWordChar (s.getD (i - 1) ' ')) &&
  (decide (i + 4 = s.length) || ! isWordChar (s.getD (i + 4) ' '))

/-- Start positions of all matches of `\b(\d{4})\b` (`FindAllStringIndex`). -/
def runsOfFour (s : List Char) : List Nat :=
  (List.range s.length).filter (fun i => isYearRunAt s i)

/-- The check `regexp.MustCompile("(?i)^copyright\\b").MatchString content`. -/
def startsWithCopyrightWord (s : List Char) : Bool :=
  toLowerStr (s.take 9) = "copyright".toList &&
  (decide (s.length ≤ 9) || ! isWordChar (s.getD 9 ' '))

/-- `regexp.MustCompile("(?i)^copyright\\s*(?:\\(c\\))?\\s*").ReplaceAllString content ""`:
drop the 9 chars of "copyright", following whitespace, an optional "(c)" marker,
and whitespace following that. -/
def stripCopyrightToken (s : List Char) : List Char :=
  let r := (s.drop 9).dropWhile isRegexSpace
  if toLowerStr (r.take 3) = "(c)".toList then (r.drop 3).dropWhile isRegexSpace else r

/-- The year/holder/trailing extraction of `parseCopyrightLine` (source lines 131-184),
applied to `afterCopyright` (the content with the leading "copyright (c)" stripped). -/
def mkInfoFromYears (lineNum : Nat) (origLine pfx : List Char) (prefixStart : Nat)
    (ac : List Char) : CopyrightInfo :=
  let runs := runsOfFour ac
  if runs = [] then
    { lineNumber := lineNum, originalLine := origLine, holder := trimSpace ac,
      startYear := 0, endYear := 0, prefixStr := pfx, trailingText := [],
      prefixIndex := prefixStart }
  else
    let lastStart := runs.getLastD 0
    let startY0 : Int :=
      if 2 ≤ runs.length then
        let prevStart := runs.getD (runs.length - 2) 0
        let between := (ac.drop (prevStart + 4)).take (lastStart - (prevStart + 4))
        if trimSpace (trimSepCutset between) = [] then
          digitsVal ((ac.drop prevStart).take 4)
        else 0
      else 0
    let endY : Int := digitsVal ((ac.drop lastStart).take 4)
    let startY : Int := if startY0 = 0 then endY else startY0
    let holderEnd : Nat :=
      if 2 ≤ runs.length ∧ startY ≠ 0 then runs.getD (runs.length - 2) 0
      else runs.headD 0
    { lineNumber := lineNum, originalLine := origLine,
      holder := trimSpace (ac.take holderEnd),
      startYear := startY, endYear := endY, prefixStr := pfx,
      trailingText := ac.drop (lastStart + 4), prefixIndex := prefixStart }

/-- The prefix-resolution step of `parseCopyrightLine` (source lines 61-108):
returns `(prefixStr, prefixStart, content)` or `none` when the line is ineligible. -/
def resolvePfx (line filePath : List Char) : Option (List Char × Nat × List Char) :=
  match findBestPfx line with
  | some (bestIdx, bestP) =>
    let prefixStart := backtrackWs line bestIdx
    let prefixEnd := bestIdx + bestP.length
    some ((line.drop prefixStart).take (prefixEnd - prefixStart), prefixStart,
          line.drop prefixEnd)
  | none =>
    if ("license".toList).isPrefixOf (toLowerStr (baseName filePath)) then
      some ([], 0, line)
    else none

/-- `parseCopyrightLine` of `update.go`. -/
def parseCopyrightLine (line : List Char) (lineNum : Nat) (filePath : List Char) :
    Option CopyrightInfo :=
  match resolvePfx line filePath with
  | none => none
  | some (pfx, prefixStart, content0) =>
    let content := trimSpace content0
    if ! startsWithCopyrightWord content then none
    else some (mkInfoFromYears lineNum line pfx prefixStart (trimSpace (stripCopyrightToken content)))

/-- `strings.Split(content, "\n")`. -/
def splitLines (s : List Char) : List (List Char) :=
  s.foldr
    (fun c acc =>
      if c = '\n' then [] :: acc
      else
        match acc with
        | [] => [[c]]
        | a :: as => (c :: a) :: as)
    [[]]

def joinLines (ls : List (List Char)) : List Char := List.intercalate ['\n'] ls

/-- `bufio.ScanLines` drops one trailing carriage return from each line. -/
def dropCR (l : List Char) : List Char :=
  if l.getLast? = some '\r' then l.dropLast else l

/-- The token stream of a `bufio.Scanner` with `ScanLines` over the content:
like `strings.Split` on newlines, except that a final newline produces no
empty final token and each token has a trailing `\r` removed. -/
def scannerLines (content : List Char) : List (List Char) :=
  if content = [] then []
  else if content.getLast? = some '\n' then (splitLines content).dropLast
  else splitLines content

/-- `extractAllCopyrightInfo` of `update.go`, over in-memory content. -/
def extractAllCopyrightInfo (content filePath : List Char) : List CopyrightInfo :=
  ((scannerLines content).enum).filterMap
    (fun p =>
      let line := dropCR p.2
      if containsSub (toLowerStr line) ("copyright".toList) then
        parseCopyrightLine line (p.1 + 1) filePath
      else none)

/-- `calculateYearUpdates` of `update.go`: `(shouldUpdate, newStartYear, newEndYear)`. -/
def calculateYearUpdates (info : CopyrightInfo) (canonicalStartYear lastCommitYear currentYear : Int)
    (forceCurrentYear : Bool) : Bool × Int × Int :=
  let s1 := canonicalStartYear > 0 ∧ info.startYear ≠ canonicalStartYear
  let newStartYear := if s1 then canonicalStartYear else info.startYear
  let s2 := lastCommitYear > info.endYear ∧ info.endYear < currentYear
  let s3 := forceCurrentYear ∧ info.endYear < currentYear
  let newEndYear := if s2 ∨ s3 then currentYear else info.endYear
  (decide s1 || decide s2 || decide s3, newStartYear, newEndYear)

/-- One entry of the anonymous update-struct list built by `evaluateCopyrightUpdates`. -/
structure PendingUpdate where
  info : CopyrightInfo
  newStartYear : Int
  newEndYear : Int
deriving Repr, DecidableEq

/-- `evaluateCopyrightUpdates` of `update.go`. -/
def evaluateCopyrightUpdates (copyrights : List CopyrightInfo) (targetHolder : List Char)
    (configYear lastCommitYear currentYear : Int) (forceCurrentYear : Bool)
    (repoFirstYear : Int) : List PendingUpdate :=
  let canonicalStartYear := if configYear = 0 ∧ repoFirstYear > 0 then repoFirstYear else configYear
  copyrights.filterMap
    (fun info =>
      if ! containsSub (toLowerStr info.holder) (toLowerStr targetHolder) then none
      else
        let r := calculateYearUpdates info canonicalStartYear lastCommitYear currentYear forceCurrentYear
        if r.1 then some ⟨info, r.2.1, r.2.2⟩ else none)

/-- `fmt.Sprintf("%d", n)` for a Go int. -/
def intToStr (n : Int) : List Char := (toString n).toList

/-- The year-field rendering of `UpdateCopyrightHeader` (source lines 541-546). -/
def renderYearStr (s e : Int) : List Char :=
  if s = e then intToStr e else intToStr s ++ ", ".toList ++ intToStr e

/-- The replacement fragment built by `UpdateCopyrightHeader` (source lines 549-552):
`fmt.Sprintf("%sCopyright %s %s", prefix, holder, yearStr)` plus the trailing text. -/
def newCopyrightText (u : PendingUpdate) : List Char :=
  u.info.prefixStr ++ "Copyright ".toList ++ u.info.holder ++ " ".toList ++
    renderYearStr u.newStartYear u.newEndYear ++ u.info.trailingText

/-- One iteration of the update-application loop (source lines 534-564). -/
def applyOneUpdate (lines : List (List Char)) (u : PendingUpdate) : List (List Char) :=
  if u.info.lineNumber < 1 ∨ lines.length < u.info.lineNumber then lines
  else
    let idx := u.info.lineNumber - 1
    let origLine := lines.getD idx []
    let newLine :=
      if 0 < u.info.prefixIndex ∧ u.info.prefixIndex < origLine.length then
        origLine.take u.info.prefixIndex ++ newCopyrightText u
      else newCopyrightText u
    lines.set idx newLine

def applyUpdates (lines : List (List Char)) (us : List PendingUpdate) : List (List Char) :=
  us.foldl applyOneUpdate lines

/-- One line matches `(?m)^.{1,2} Code generated .* DO NOT EDIT\.$`
(`.` excludes newlines, so a match spans exactly one newline-split line). -/
def goGeneratedLine (l : List Char) : Bool :=
  let mid := " Code generated ".toList
  let tail13 := " DO NOT EDIT.".toList
  tail13.isSuffixOf l &&
  ((mid.isPrefixOf (l.drop 1) && decide (1 + mid.length + tail13.length ≤ l.length)) ||
   (mid.isPrefixOf (l.drop 2) && decide (2 + mid.length + tail13.length ≤ l.length)))

/-- One line matches `(?m)^DO NOT EDIT! Replaced on runs of cargo-raze$`. -/
def cargoRazeLine (l : List Char) : Bool :=
  l = "DO NOT EDIT! Replaced on runs of cargo-raze".toList

/-- One line matches `(?m)^# This file is maintained automatically by "terraform init"\.$`. -/
def terraformLine (l : List Char) : Bool :=
  l = "# This file is maintained automatically by \"terraform init\".".toList

/-- `isGenerated` (identical in `licensecheck/update.go` and `addlicense/main.go`):
the content contains a whole line matching one of the three generated-file markers. -/
def isGenerated (content : List Char) : Bool :=
  (splitLines content).any (fun l => goGeneratedLine l || cargoRazeLine l || terraformLine l)

/-- A write-back to disk: the new content and the permission mode passed to `os.WriteFile`. -/
structure WriteOp where
  content : List Char
  perm : Nat
deriving Repr, DecidableEq

/-- `UpdateCopyrightHeader` of `update.go`, over in-memory content.  The external
signals read inside the Go function (`time.Now().Year()`, the per-file git
last-commit year, the repo first-commit year — both `0` when git fails) are
explicit parameters.  Returns the modified flag and the write-back, if any. -/
def UpdateCopyrightHeader (filePath content targetHolder : List Char) (configYear : Int)
    (forceCurrentYear : Bool) (currentYear lastCommitYear repoFirstYear : Int) :
    Bool × Option WriteOp :=
  if baseName filePath = ".copywrite.hcl".toList then (false, none)
  else if isGenerated content then (false, none)
  else
    let copyrights := extractAllCopyrightInfo content filePath
    if copyrights = [] then (false, none)
    else
      let updates := evaluateCopyrightUpdates copyrights targetHolder configYear
        lastCommitYear currentYear forceCurrentYear repoFirstYear
      if updates = [] then (false, none)
      else
        (true, some ⟨joinLines (applyUpdates (splitLines content) updates), 0o644⟩)

/-- `NeedsUpdate` of `update.go`, over in-memory content: the check-only variant,
returning a boolean and performing no write. -/
def NeedsUpdate (filePath content targetHolder : List Char) (configYear : Int)
    (forceCurrentYear : Bool) (currentYear lastCommitYear repoFirstYear : Int) : Bool :=
  if baseName filePath = ".copywrite.hcl".toList then false
  else if isGenerated content then false
  else
    let copyrights := extractAllCopyrightInfo content filePath
    if copyrights = [] then false
    else
      let updates := evaluateCopyrightUpdates copyrights targetHolder configYear
        lastCommitYear currentYear forceCurrentYear repoFirstYear
      decide (updates ≠ [])

/-- `hasLicense` of `addlicense/main.go`: case-insensitive search of the first
1000 bytes for the three license indicators. -/
def hasLicense (b : List Char) : Bool :=
  let n := min 1000 b.length
  let header := toLowerStr (b.take n)
  containsSub header ("copyright".toList) ||
  containsSub header ("mozilla public".toList) ||
  containsSub header ("spdx-license-identifier".toList)

/-- The `head` first-line prefix table of `addlicense/main.go`. -/
def headPfxTable : List (List Char) :=
  ["#!".toList, "<?xml".toList, "<!doctype".toList, "# encoding:".toList,
   "# frozen_string_literal:".toList, "#\\".toList, "<?php".toList,
   "# escape".toList, "# syntax".toList, "/** @jest-environment".toList]

/-- The first line of the content, including its newline, as built by `hashBang`. -/
def firstLineWithNL : List Char → List Char
  | [] => []
  | c :: r => if c = '\n' then [c] else c :: firstLineWithNL r

/-- `hashBang` of `addlicense/main.go` for files without the `.sentinel` extension
(for which `matchPattern` returns no match): the first line when it starts,
case-insensitively, with a recognized special prefix, else empty. -/
def hashBang (b : List Char) : List Char :=
  let line := firstLineWithNL b
  if headPfxTable.any (fun h => h.isPrefixOf (toLowerStr line)) then line else []

/-- `addLicense` of `addlicense/main.go` for non-`.sentinel` paths, over in-memory
content.  `lic` is the result of `licenseHeader` (the rendered per-extension
template; `none` when the extension has no known comment style) and `fmode`
the file's original permission mode.  Returns the updated flag and write-back. -/
def addLicense (content : List Char) (fmode : Nat) (lic : Option (List Char)) :
    Bool × Option WriteOp :=
  match lic with
  | none => (false, none)
  | some licB =>
    if hasLicense content || isGenerated content then (false, none)
    else
      let line := hashBang content
      if line.length > 0 then
        let b := content.drop line.length
        let line2 := if line.getLastD ' ' = '\n' then line else line ++ ['\n']
        (true, some ⟨(line2 ++ licB) ++ b, fmode⟩)
      else
        (true, some ⟨licB ++ content, fmode⟩)

/-- The `afterCopyright` string computed inside `parseCopyrightLine`: the content
after the resolved prefix with the leading "copyright (c)" tokens stripped
(meaningful when the parse succeeds). -/
def afterCopyrightOf (line filePath : List Char) : List Char :=
  match resolvePfx line filePath with
  | none => []
  | some (_, _, content0) => trimSpace (stripCopyrightToken (trimSpace content0))

/-- The documented permission contract of the external write-back call
`os.WriteFile` (Go standard library, outside this repository): the mode
argument is applied only when the call has to create the file; an existing
file is truncated and rewritten without changing its permission bits. -/
def osWriteFileMode (fileExists : Bool) (origMode perm : Nat) : Nat :=
  if fileExists then origMode else perm

end Copywrite

namespace Copywrite

/-- Claim C4: with `forceCurrentYear = false`, the end-year rule of
`calculateYearUpdates` fires exactly when the last-commit year is strictly
greater than the statement's end year and the end year is strictly below the
current year; when it fires the new end year is `currentYear` (not the commit
year), otherwise the end year is unchanged; firing triggers an update. -/
theorem C4_end_year_rule (info : CopyrightInfo) (c l cur : Int) :
    ((calculateYearUpdates info c l cur false).2.2 =
      if l > info.endYear ∧ info.endYear < cur then cur else info.endYear) ∧
    (l > info.endYear ∧ info.endYear < cur →
      (calculateYearUpdates info c l cur false).1 = true) := by
  unfold calculateYearUpdates
  constructor
  · simp
  · intro h
    simp [h]

theorem C4_end_year_rule_witness :
    ((2025 : Int) > 2020 ∧ (2020 : Int) < 2026) ∧
    ((calculateYearUpdates ⟨1, [], [], 2014, 2020, [], [], 0⟩ 2014 2025 2026 false).2.2 = 2026) ∧
    ((calculateYearUpdates ⟨1, [], [], 2014, 2020, [], [], 0⟩ 2014 2025 2026 false).1 = true) :=
  ⟨by decide,
   by rw [(C4_end_year_rule ⟨1, [], [], 2014, 2020, [], [], 0⟩ 2014 2025 2026).1]; decide,
   (C4_end_year_rule ⟨1, [], [], 2014, 2020, [], [], 0⟩ 2014 2025 2026).2 (by decide)⟩

/-- Claim C8: for the same content and the same policy and git signals, the
check-only operation `NeedsUpdate` returns `true` exactly when
`UpdateCopyrightHeader` reports the file as modified (the check-only variant
returns a boolean and produces no write-back by construction). -/
theorem C8_needsUpdate_iff_modified (fp content th : List Char) (cy : Int) (f : Bool)
    (cur l rf : Int) :
    NeedsUpdate fp content th cy f cur l rf =
      (UpdateCopyrightHeader fp content th cy f cur l rf).1 := by
  unfold NeedsUpdate UpdateCopyrightHeader
  split_ifs <;> try simp_all
  by_cases hA : extractAllCopyrightInfo content fp = [] <;>
    by_cases hB : evaluateCopyrightUpdates (extractAllCopyrightInfo content fp)
      th cy l cur f rf = [] <;>
    simp [hA, hB]

/-- Claim C7: a file containing a recognized generated-file marker is never
modified: the update operation reports unmodified with no write-back, the
check-only operation reports no update needed, and the inserter does not
insert — regardless of any (possibly stale) copyright lines also present. -/
theorem C7_generated_immunity (fp content th : List Char) (cy : Int) (f : Bool)
    (cur l rf : Int) (fmode : Nat) (lic : Option (List Char))
    (h : isGenerated content = true) :
    UpdateCopyrightHeader fp content th cy f cur l rf = (false, none) ∧
    NeedsUpdate fp content th cy f cur l rf = false ∧
    addLicense content fmode lic = (false, none) := by
  refine ⟨?_, ?_, ?_⟩
  · unfold UpdateCopyrightHeader
    split_ifs <;> simp_all
  · unfold NeedsUpdate
    split_ifs <;> simp_all
  · cases lic <;> simp [addLicense, h]

theorem C7_generated_immunity_witness :
    isGenerated ("// Copyright IBM Corp. 2020\n// Code generated by X; DO NOT EDIT.".toList) = true ∧
    UpdateCopyrightHeader "main.go".toList
        ("// Copyright IBM Corp. 2020\n// Code generated by X; DO NOT EDIT.".toList)
        "IBM".toList 0 true 2026 2025 0 = (false, none) ∧
    NeedsUpdate "main.go".toList
        ("// Copyright IBM Corp. 2020\n// Code generated by X; DO NOT EDIT.".toList)
        "IBM".toList 0 true 2026 2025 0 = false ∧
    addLicense ("// Copyright IBM Corp. 2020\n// Code generated by X; DO NOT EDIT.".toList)
        420 (some "// hdr\n".toList) = (false, none) :=
  ⟨by decide,
   (C7_generated_immunity "main.go".toList _ "IBM".toList 0 true 2026 2025 0 420
     (some "// hdr\n".toList) (by decide)).1,
   (C7_generated_immunity "main.go".toList _ "IBM".toList 0 true 2026 2025 0 420
     (some "// hdr\n".toList) (by decide)).2.1,
   (C7_generated_immunity "main.go".toList _ "IBM".toList 0 true 2026 2025 0 420
     (some "// hdr\n".toList) (by decide)).2.2⟩

/-- Claim C9 (amended): whenever the update operation writes a file back, it
passes the fixed permission mode `0644` (octal) to the write call, regardless
of the file's original mode, while the inserter passes the original mode
`fmode`; but since `os.WriteFile` applies its mode argument only when creating
a file, an existing file's permission bits are left unchanged — the update does
not actually change the file's permissions. -/
theorem C9_write_modes (fp content th : List Char) (cy : Int) (f : Bool) (cur l rf : Int)
    (content2 : List Char) (fmode : Nat) (lic : Option (List Char)) :
    ((∀ w, (UpdateCopyrightHeader fp content th cy f cur l rf).2 = some w → w.perm = 0o644) ∧
    (∀ w, (addLicense content2 fmode lic).2 = some w → w.perm = fmode)) ∧
    (∀ origMode perm : Nat, osWriteFileMode true origMode perm = origMode) := by
  refine ⟨?_, fun origMode perm => rfl⟩
  constructor
  · intro w hw
    have hshape : (UpdateCopyrightHeader fp content th cy f cur l rf).2 = none ∨
        ∃ cc, (UpdateCopyrightHeader fp content th cy f cur l rf).2 = some ⟨cc, 0o644⟩ := by
      unfold UpdateCopyrightHeader
      by_cases h1 : baseName fp = ".copywrite.hcl".toList <;>
        by_cases h2 : isGenerated content = true <;>
        by_cases h3 : extractAllCopyrightInfo content fp = [] <;>
        by_cases h4 : evaluateCopyrightUpdates (extractAllCopyrightInfo content fp)
          th cy l cur f rf = [] <;>
        simp_all
    rcases hshape with hn | ⟨cc, hs⟩
    · rw [hn] at hw; exact absurd hw (by simp)
    · rw [hs] at hw
      cases hw
      rfl
  · intro w hw
    have hshape : (addLicense content2 fmode lic).2 = none ∨
        ∃ cc, (addLicense content2 fmode lic).2 = some ⟨cc, fmode⟩ := by
      cases lic with
      | none => simp [addLicense]
      | some licB =>
        unfold addLicense
        dsimp only
        split_ifs <;> simp
    rcases hshape with hn | ⟨cc, hs⟩
    · rw [hn] at hw; exact absurd hw (by simp)
    · rw [hs] at hw
      cases hw
      rfl

theorem C9_write_modes_witness :
    ((UpdateCopyrightHeader "main.go".toList "// Copyright IBM Corp. 2014, 2020".toList
        "IBM Corp.".toList 2014 false 2026 2025 0).2 =
      some ⟨"// Copyright IBM Corp. 2014, 2026".toList, 420⟩) ∧
    (WriteOp.mk "// Copyright IBM Corp. 2014, 2026".toList 420).perm = 0o644 ∧
    ((addLicense "package main\n".toList 493 (some "// hdr\n".toList)).2 =
      some ⟨"// hdr\npackage main\n".toList, 493⟩) ∧
    (WriteOp.mk "// hdr\npackage main\n".toList 493).perm = 493 ∧
    osWriteFileMode true 493 420 = 493 :=
  ⟨by decide,
   (C9_write_modes "main.go".toList "// Copyright IBM Corp. 2014, 2020".toList
      "IBM Corp.".toList 2014 false 2026 2025 0 "package main\n".toList 493
      (some "// hdr\n".toList)).1.1 _ (by decide),
   by decide,
   (C9_write_modes "main.go".toList "// Copyright IBM Corp. 2014, 2020".toList
      "IBM Corp.".toList 2014 false 2026 2025 0 "package main\n".toList 493
      (some "// hdr\n".toList)).1.2 _ (by decide),
   (C9_write_modes "main.go".toList "// Copyright IBM Corp. 2014, 2020".toList
      "IBM Corp.".toList 2014 false 2026 2025 0 "package main\n".toList 493
      (some "// hdr\n".toList)).2 493 420⟩

/-- Claim C9 counterexample: a file that already exists (the updater has read
it) with permission mode `0755` and needing an update is rewritten with mode
argument `0644`, but by the `os.WriteFile` contract the existing file keeps
mode `0755` — the operation does not change the file's permissions. -/
theorem C9_counterexample :
    (UpdateCopyrightHeader "main.go".toList "// Copyright IBM Corp. 2014, 2020".toList
        "IBM Corp.".toList 2014 false 2026 2025 0).2 =
      some ⟨"// Copyright IBM Corp. 2014, 2026".toList, 0o644⟩ ∧
    osWriteFileMode true 0o755 0o644 = 0o755 ∧ (0o755 : Nat) ≠ 0o644 :=
  ⟨by decide, rfl, by decide⟩

theorem take_min_length (l : List Char) (n : Nat) : l.take (min n l.length) = l.take n := by
  rcases Nat.le_total n l.length with h | h
  · rw [Nat.min_eq_left h]
  · rw [Nat.min_eq_right h, List.take_of_length_le h,
      List.take_of_length_le (Nat.le_of_eq rfl)]

/-- Claim C10: the inserter decides "already has a license" by scanning only the
first 1000 bytes, case-insensitively, for "copyright", "mozilla public" or
"spdx-license-identifier"; any file whose first 1000 bytes contain "copyright"
is never given a header, while indicators present only after the first 1000
bytes do not prevent insertion. -/
theorem C10_first_1000_gate (content licB : List Char) (fmode : Nat) (lic : Option (List Char)) :
    (hasLicense content =
      (containsSub (toLowerStr (content.take 1000)) ("copyright".toList) ||
       containsSub (toLowerStr (content.take 1000)) ("mozilla public".toList) ||
       containsSub (toLowerStr (content.take 1000)) ("spdx-license-identifier".toList))) ∧
    (containsSub (toLowerStr (content.take 1000)) ("copyright".toList) = true →
      addLicense content fmode lic = (false, none)) ∧
    (hasLicense content = false → isGenerated content = false →
      (addLicense content fmode (some licB)).1 = true) := by
  have htake : content.take (min 1000 content.length) = content.take 1000 :=
    take_min_length content 1000
  have hdef : hasLicense content =
      (containsSub (toLowerStr (content.take 1000)) ("copyright".toList) ||
       containsSub (toLowerStr (content.take 1000)) ("mozilla public".toList) ||
       containsSub (toLowerStr (content.take 1000)) ("spdx-license-identifier".toList)) := by
    unfold hasLicense
    dsimp only
    rw [htake]
  refine ⟨hdef, ?_, ?_⟩
  · intro h
    have hl : hasLicense content = true := by rw [hdef, h]; simp
    cases lic with
    | none => simp [addLicense]
    | some licB2 => simp [addLicense, hl]
  · intro h1 h2
    unfold addLicense
    dsimp only
    rw [h1, h2]
    simp only [Bool.or_self, Bool.false_eq_true, if_false]
    split_ifs <;> rfl

theorem splitLines_no_newline (s : List Char) (h : ∀ c ∈ s, c ≠ '\n') :
    splitLines s = [s] := by
  induction s with
  | nil => rfl
  | cons c r ih =>
    have hc : c ≠ '\n' := h c (List.mem_cons_self c r)
    have hr := ih (fun x hx => h x (List.mem_cons_of_mem c hx))
    unfold splitLines at hr ⊢
    rw [List.foldr_cons, hr]
    simp [hc]

theorem isGenerated_big_false :
    isGenerated (List.replicate 1000 'a' ++ " copyright".toList) = false := by
  have hnl : ∀ c ∈ (List.replicate 1000 'a' ++ " copyright".toList), c ≠ '\n' := by
    intro c hc
    rcases List.mem_append.1 hc with h1 | h2
    · rw [List.eq_of_mem_replicate h1]; decide
    · exact (by decide : ∀ c ∈ " copyright".toList, c ≠ '\n') c h2
  have hsuf : (" DO NOT EDIT.".toList).isSuffixOf
      (List.replicate 1000 'a' ++ " copyright".toList) = false := by
    show ((" DO NOT EDIT.".toList).reverse).isPrefixOf
      ((List.replicate 1000 'a' ++ " copyright".toList).reverse) = false
    rw [List.reverse_append]
    decide
  have hcar : cargoRazeLine (List.replicate 1000 'a' ++ " copyright".toList) = false := by
    decide
  have hter : terraformLine (List.replicate 1000 'a' ++ " copyright".toList) = false := by
    decide
  unfold isGenerated
  rw [splitLines_no_newline _ hnl, List.any_cons, List.any_nil]
  unfold goGeneratedLine
  dsimp only
  rw [hsuf, hcar, hter]
  rfl

set_option maxRecDepth 20000 in
theorem C10_first_1000_gate_witness :
    (containsSub (toLowerStr (("// Copyright X 2020".toList).take 1000)) ("copyright".toList) = true ∧
     addLicense "// Copyright X 2020".toList 420 (some "// hdr\n".toList) = (false, none)) ∧
    (hasLicense (List.replicate 1000 'a' ++ " copyright".toList) = false ∧
     isGenerated (List.replicate 1000 'a' ++ " copyright".toList) = false ∧
     (addLicense (List.replicate 1000 'a' ++ " copyright".toList) 420 (some "// hdr\n".toList)).1 = true) :=
  ⟨⟨by decide,
    (C10_first_1000_gate "// Copyright X 2020".toList "// hdr\n".toList 420
      (some "// hdr\n".toList)).2.1 (by decide)⟩,
   ⟨by decide, isGenerated_big_false,
    (C10_first_1000_gate (List.replicate 1000 'a' ++ " copyright".toList) "// hdr\n".toList 420
      (some "// hdr\n".toList)).2.2 (by decide) isGenerated_big_false⟩⟩

/-- Claim C1 counterexample: the update operation is not idempotent at the
content level.  On `"// Copyright IBM 1111 2020 2024"` with canonical start
year 2026, current year 2026 and last-commit year 2025, the first run rewrites
the line to `"// Copyright IBM 1111 2026"`; re-parsing that line yields start
year 1111 (the `1111` inside the holder is absorbed into the year range), so
a second run with the same fixed policy rewrites the line again, returning
modified and changing the content — not the no-op the claim requires. -/
theorem C1_counterexample :
    UpdateCopyrightHeader "main.go".toList "// Copyright IBM 1111 2020 2024".toList
        "IBM".toList 2026 false 2026 2025 0 =
      (true, some ⟨"// Copyright IBM 1111 2026".toList, 0o644⟩) ∧
    UpdateCopyrightHeader "main.go".toList "// Copyright IBM 1111 2026".toList
        "IBM".toList 2026 false 2026 2025 0 =
      (true, some ⟨"// Copyright IBM 2026".toList, 0o644⟩) ∧
    ("// Copyright IBM 2026".toList ≠ "// Copyright IBM 1111 2026".toList) := by
  refine ⟨by decide, by decide, by decide⟩

theorem calculateYearUpdates_self_false (info : CopyrightInfo) (c l cur : Int) (f : Bool) :
    (calculateYearUpdates
      { info with
        startYear := (calculateYearUpdates info c l cur f).2.1,
        endYear := (calculateYearUpdates info c l cur f).2.2 } c l cur f).1 = false := by
  unfold calculateYearUpdates
  dsimp only
  split_ifs <;> simp_all

theorem evaluate_eq_nil_of_no_decision (copyrights : List CopyrightInfo) (th : List Char)
    (cy l cur : Int) (f : Bool) (rf : Int)
    (H : ∀ i ∈ copyrights,
      containsSub (toLowerStr i.holder) (toLowerStr th) = true →
      (calculateYearUpdates i (if cy = 0 ∧ rf > 0 then rf else cy) l cur f).1 = false) :
    evaluateCopyrightUpdates copyrights th cy l cur f rf = [] := by
  unfold evaluateCopyrightUpdates
  dsimp only
  rw [List.filterMap_eq_nil_iff]
  intro i hi
  cases hc : containsSub (toLowerStr i.holder) (toLowerStr th) with
  | false => simp [hc]
  | true => simp [hc, H i hi hc]

/-- Claim C1 (amended): the update operation is idempotent exactly to the
extent that re-parsing is faithful.  Two facts hold: (a) the
year-reconciliation decision itself is idempotent — re-running
`calculateYearUpdates` on the `(newStartYear, newEndYear)` pair it produced,
with the same policy inputs, always reports `shouldUpdate = false` — and
(b) whenever every statement parsed from the once-updated content that matches
the target holder yields `shouldUpdate = false` (in particular whenever each
rewritten line re-parses to the years that were written), the second run
returns not-modified with no write-back.  The faithfulness premise can fail
when a holder itself contains a four-digit year run, as the counterexample
shows. -/
theorem C1_idempotence_amended (info : CopyrightInfo) (c l cur : Int) (f : Bool)
    (fp c2 th : List Char) (cy l2 cur2 rf : Int) (f2 : Bool)
    (H : ∀ i ∈ extractAllCopyrightInfo c2 fp,
      containsSub (toLowerStr i.holder) (toLowerStr th) = true →
      (calculateYearUpdates i (if cy = 0 ∧ rf > 0 then rf else cy) l2 cur2 f2).1 = false) :
    ((calculateYearUpdates
      { info with
        startYear := (calculateYearUpdates info c l cur f).2.1,
        endYear := (calculateYearUpdates info c l cur f).2.2 } c l cur f).1 = false) ∧
    UpdateCopyrightHeader fp c2 th cy f2 cur2 l2 rf = (false, none) := by
  refine ⟨calculateYearUpdates_self_false info c l cur f, ?_⟩
  have hnil := evaluate_eq_nil_of_no_decision (extractAllCopyrightInfo c2 fp) th cy l2 cur2 f2 rf H
  unfold UpdateCopyrightHeader
  by_cases h1 : baseName fp = ".copywrite.hcl".toList <;>
    by_cases h2 : isGenerated c2 = true <;>
    by_cases h3 : extractAllCopyrightInfo c2 fp = [] <;>
    simp_all

theorem C1_idempotence_amended_witness :
    (UpdateCopyrightHeader "main.go".toList "// Copyright IBM Corp. 2014, 2020".toList
        "IBM Corp.".toList 2014 false 2026 2025 0 =
      (true, some ⟨"// Copyright IBM Corp. 2014, 2026".toList, 420⟩)) ∧
    (∀ i ∈ extractAllCopyrightInfo "// Copyright IBM Corp. 2014, 2026".toList "main.go".toList,
      containsSub (toLowerStr i.holder) (toLowerStr "IBM Corp.".toList) = true →
      (calculateYearUpdates i (if (2014 : Int) = 0 ∧ (0 : Int) > 0 then 0 else 2014)
        2025 2026 false).1 = false) ∧
    UpdateCopyrightHeader "main.go".toList "// Copyright IBM Corp. 2014, 2026".toList
        "IBM Corp.".toList 2014 false 2026 2025 0 = (false, none) :=
  ⟨by decide, by decide,
   (C1_idempotence_amended ⟨1, [], [], 0, 0, [], [], 0⟩ 0 0 0 false
      "main.go".toList "// Copyright IBM Corp. 2014, 2026".toList "IBM Corp.".toList
      2014 2025 2026 0 false (by decide)).2⟩

/-- Claim C3 counterexample: the engine does not order the year pair before
rendering.  With canonical start year 3000, a statement `2020` whose end-year
rule does not fire is rewritten with year field `"3000, 2020"`, i.e. rendered
start strictly greater than rendered end. -/
theorem C3_counterexample :
    UpdateCopyrightHeader "main.go".toList "// Copyright IBM Corp. 2020".toList
        "IBM".toList 3000 false 2026 2020 0 =
      (true, some ⟨"// Copyright IBM Corp. 3000, 2020".toList, 0o644⟩) ∧
    evaluateCopyrightUpdates
        (extractAllCopyrightInfo "// Copyright IBM Corp. 2020".toList "main.go".toList)
        "IBM".toList 3000 2020 2026 false 0 =
      [⟨⟨1, "// Copyright IBM Corp. 2020".toList, "IBM Corp.".toList, 2020, 2020,
         "// ".toList, [], 0⟩, 3000, 2020⟩] ∧
    ((3000 : Int) > 2020) := by
  refine ⟨by decide, by decide, by decide⟩

/-- Claim C5 counterexample: when the last two four-digit runs are not
separated by separator characters only, the holder is NOT everything before
the last (used) year run: on `"// Copyright IBM 1111 foo 2020"` the parser
returns holder `"IBM"` (the text before the second-to-last run), not
`"IBM 1111 foo"`, and the text `"1111 foo "` is dropped by a rewrite. -/
theorem C5_counterexample :
    parseCopyrightLine "// Copyright IBM 1111 foo 2020".toList 1 "main.go".toList =
      some ⟨1, "// Copyright IBM 1111 foo 2020".toList, "IBM".toList, 2020, 2020,
            "// ".toList, [], 0⟩ ∧
    ("IBM".toList ≠
      trimSpace (("IBM 1111 foo 2020".toList).take
        ((runsOfFour "IBM 1111 foo 2020".toList).getLastD 0))) ∧
    UpdateCopyrightHeader "main.go".toList "// Copyright IBM 1111 foo 2020".toList
        "IBM".toList 0 true 2026 0 0 =
      (true, some ⟨"// Copyright IBM 2020, 2026".toList, 0o644⟩) := by
  refine ⟨by decide, by decide, by decide⟩

theorem mkInfoFromYears_lineNumber (nn : Nat) (o p : List Char) (ps : Nat) (ac : List Char) :
    (mkInfoFromYears nn o p ps ac).lineNumber = nn := by
  unfold mkInfoFromYears
  dsimp only
  split_ifs <;> rfl

theorem parseCopyrightLine_lineNumber {line fp : List Char} {n : Nat} {info : CopyrightInfo}
    (h : parseCopyrightLine line n fp = some info) : info.lineNumber = n := by
  unfold parseCopyrightLine at h
  rcases hr : resolvePfx line fp with _ | ⟨pfx, ps, c0⟩
  · rw [hr] at h
    exact absurd h (by simp)
  · rw [hr] at h
    dsimp only at h
    generalize hs : startsWithCopyrightWord (trimSpace c0) = b at h
    cases b with
    | false =>
      simp only [Bool.not_false, eq_self_iff_true, if_true] at h
      exact absurd h (by simp)
    | true =>
      simp only [Bool.not_true, Bool.false_eq_true, if_false] at h
      have he := Option.some.inj h
      rw [← he]
      exact mkInfoFromYears_lineNumber _ _ _ _ _

theorem extractAll_mem_spec {content fp : List Char} {info : CopyrightInfo}
    (h : info ∈ extractAllCopyrightInfo content fp) :
    ∃ j, j < (scannerLines content).length ∧ info.lineNumber = j + 1 ∧
      parseCopyrightLine (dropCR ((scannerLines content).getD j [])) (j + 1) fp = some info := by
  unfold extractAllCopyrightInfo at h
  rcases List.mem_filterMap.1 h with ⟨⟨j, x⟩, hmem, hfx⟩
  dsimp only at hfx
  split_ifs at hfx with hc
  · have hx : (scannerLines content)[j]? = some x := List.mk_mem_enum_iff_getElem?.1 hmem
    obtain ⟨hjlt, hje⟩ := List.getElem?_eq_some_iff.1 hx
    have hg : (scannerLines content).getD j [] = x := by
      simp [List.getD_eq_getElem?_getD, hx]
    exact ⟨j, hjlt, parseCopyrightLine_lineNumber hfx, by rw [hg]; exact hfx⟩

theorem evaluate_mem_spec {copyrights : List CopyrightInfo} {th : List Char}
    {cy l cur rf : Int} {f : Bool} {u : PendingUpdate}
    (h : u ∈ evaluateCopyrightUpdates copyrights th cy l cur f rf) :
    u.info ∈ copyrights ∧
    containsSub (toLowerStr u.info.holder) (toLowerStr th) = true := by
  unfold evaluateCopyrightUpdates at h
  dsimp only at h
  rcases List.mem_filterMap.1 h with ⟨info, hmem, hfi⟩
  split_ifs at hfi
  all_goals have he := Option.some.inj hfi
  all_goals subst he
  all_goals exact ⟨hmem, by simp_all⟩

theorem enum_pairwise_fst (l : List (List Char)) :
    (l.enum).Pairwise (fun a b => a.1 < b.1) := by
  show (l.enumFrom 0).Pairwise (fun a b => a.1 < b.1)
  rw [List.pairwise_iff_getElem]
  intro i j h1 h2 h3
  rw [List.getElem_enumFrom, List.getElem_enumFrom]
  simpa using h3

theorem extractAll_pairwise (content fp : List Char) :
    (extractAllCopyrightInfo content fp).Pairwise (fun a b => a.lineNumber < b.lineNumber) := by
  unfold extractAllCopyrightInfo
  refine List.Pairwise.filterMap _ ?_ (enum_pairwise_fst _)
  intro a a' hr b hb b' hb'
  rw [Option.mem_def] at hb hb'
  dsimp only at hb hb'
  split_ifs at hb
  all_goals split_ifs at hb'
  all_goals have e1 := parseCopyrightLine_lineNumber hb
  all_goals have e2 := parseCopyrightLine_lineNumber hb'
  all_goals omega

theorem evaluate_pairwise (copyrights : List CopyrightInfo) (th : List Char)
    (cy l cur rf : Int) (f : Bool)
    (hp : copyrights.Pairwise (fun a b => a.lineNumber < b.lineNumber)) :
    (evaluateCopyrightUpdates copyrights th cy l cur f rf).Pairwise
      (fun a b => a.info.lineNumber < b.info.lineNumber) := by
  unfold evaluateCopyrightUpdates
  dsimp only
  refine List.Pairwise.filterMap _ ?_ hp
  intro a a' hr b hb b' hb'
  rw [Option.mem_def] at hb hb'
  split_ifs at hb
  all_goals split_ifs at hb'
  all_goals have he := Option.some.inj hb
  all_goals have he2 := Option.some.inj hb'
  all_goals rw [← he, ← he2]
  all_goals exact hr

theorem applyOneUpdate_length (lines : List (List Char)) (u : PendingUpdate) :
    (applyOneUpdate lines u).length = lines.length := by
  unfold applyOneUpdate
  dsimp only
  split_ifs <;> simp

theorem applyUpdates_length (lines : List (List Char)) (us : List PendingUpdate) :
    (applyUpdates lines us).length = lines.length := by
  induction us generalizing lines with
  | nil => rfl
  | cons u vs ih =>
    show (applyUpdates (applyOneUpdate lines u) vs).length = _
    rw [ih, applyOneUpdate_length]

theorem applyOneUpdate_getD_ne (lines : List (List Char)) (u : PendingUpdate) (i : Nat)
    (h : u.info.lineNumber ≠ i + 1) :
    (applyOneUpdate lines u).getD i [] = lines.getD i [] := by
  unfold applyOneUpdate
  dsimp only
  split_ifs with hg
  · rfl
  all_goals have hne : u.info.lineNumber - 1 ≠ i := by omega
  all_goals simp [List.getD_eq_getElem?_getD, List.getElem?_set_ne hne]

theorem applyUpdates_getD_not_mem (lines : List (List Char)) (us : List PendingUpdate) (i : Nat)
    (h : ∀ u ∈ us, u.info.lineNumber ≠ i + 1) :
    (applyUpdates lines us).getD i [] = lines.getD i [] := by
  induction us generalizing lines with
  | nil => rfl
  | cons u vs ih =>
    show (applyUpdates (applyOneUpdate lines u) vs).getD i [] = _
    rw [ih _ (fun v hv => h v (List.mem_cons_of_mem u hv)),
        applyOneUpdate_getD_ne lines u i (h u (List.mem_cons_self u vs))]

/-- On a list of pending updates with strictly increasing line numbers, the
line at index `i` in the result is the rewrite of the original line by the
unique update targeting line `i + 1` (the body of the update loop). -/
theorem applyUpdates_getD_target (lines : List (List Char)) (us : List PendingUpdate)
    (i : Nat) (u : PendingUpdate)
    (hp : us.Pairwise (fun a b => a.info.lineNumber < b.info.lineNumber))
    (hmem : u ∈ us) (hln : u.info.lineNumber = i + 1) (hi : i < lines.length) :
    (applyUpdates lines us).getD i [] =
      if 0 < u.info.prefixIndex ∧ u.info.prefixIndex < (lines.getD i []).length then
        (lines.getD i []).take u.info.prefixIndex ++ newCopyrightText u
      else newCopyrightText u := by
  induction us generalizing lines with
  | nil => cases hmem
  | cons v vs ih =>
    rw [List.pairwise_cons] at hp
    rcases List.mem_cons.1 hmem with rfl | hm
    · have hrest : ∀ w ∈ vs, w.info.lineNumber ≠ i + 1 := by
        intro w hw
        have := hp.1 w hw
        omega
      show (applyUpdates (applyOneUpdate lines u) vs).getD i [] = _
      rw [applyUpdates_getD_not_mem _ _ _ hrest]
      unfold applyOneUpdate
      dsimp only
      rw [if_neg (show ¬(u.info.lineNumber < 1 ∨ lines.length < u.info.lineNumber) by omega)]
      have hidx : u.info.lineNumber - 1 = i := by omega
      rw [hidx]
      simp [List.getD_eq_getElem?_getD, List.getElem?_set_self hi]
    · have hvne : v.info.lineNumber ≠ i + 1 := by
        have := hp.1 u hm
        omega
      show (applyUpdates (applyOneUpdate lines v) vs).getD i [] = _
      rw [ih (applyOneUpdate lines v) hp.2 hm (by rw [applyOneUpdate_length]; exact hi),
        applyOneUpdate_getD_ne lines v i hvne]

/-- Claim C2: a copyright statement whose holder does not match the target
holder (case-insensitive substring test) is never rewritten: the line it sits
on is byte-for-byte identical in the update's output, regardless of how stale
its years are; and any written content is exactly the join of the line list in
which that line is untouched. -/
theorem C2_holder_isolation (fp content th : List Char) (cy : Int) (f : Bool)
    (cur l rf : Int) (i : Nat) (info : CopyrightInfo)
    (hp : parseCopyrightLine (dropCR ((scannerLines content).getD i [])) (i + 1) fp = some info)
    (hm : containsSub (toLowerStr info.holder) (toLowerStr th) = false) :
    (applyUpdates (splitLines content)
        (evaluateCopyrightUpdates (extractAllCopyrightInfo content fp) th cy l cur f rf)).getD
        i [] =
      (splitLines content).getD i [] ∧
    ∀ w, (UpdateCopyrightHeader fp content th cy f cur l rf).2 = some w →
      w.content = joinLines (applyUpdates (splitLines content)
        (evaluateCopyrightUpdates (extractAllCopyrightInfo content fp) th cy l cur f rf)) := by
  constructor
  · apply applyUpdates_getD_not_mem
    intro u hu hln
    obtain ⟨hin, hc⟩ := evaluate_mem_spec hu
    obtain ⟨j, hjlt, hjl, hpj⟩ := extractAll_mem_spec hin
    have hji : j = i := by omega
    subst hji
    rw [hp] at hpj
    have he := Option.some.inj hpj
    rw [← he] at hc
    rw [hm] at hc
    cases hc
  · intro w hw
    unfold UpdateCopyrightHeader at hw
    by_cases h1 : baseName fp = ".copywrite.hcl".toList <;>
      by_cases h2 : isGenerated content = true <;>
      by_cases h3 : extractAllCopyrightInfo content fp = [] <;>
      by_cases h4 : evaluateCopyrightUpdates (extractAllCopyrightInfo content fp)
        th cy l cur f rf = [] <;>
      (simp_all; try rw [← hw])

/-- Claim C6: for a statement parsed as an inline trailing comment
(`prefixIndex > 0`), the update replaces only the suffix of the line starting
at that offset — the bytes before it are preserved — and when `prefixIndex`
is `0` (or out of range) the whole line is replaced by the new copyright text. -/
theorem C6_inline_preservation (fp content th : List Char) (cy : Int) (f : Bool)
    (cur l rf : Int) (i : Nat) (u : PendingUpdate)
    (hmem : u ∈ evaluateCopyrightUpdates (extractAllCopyrightInfo content fp) th cy l cur f rf)
    (hln : u.info.lineNumber = i + 1) (hi : i < (splitLines content).length) :
    ((applyUpdates (splitLines content)
        (evaluateCopyrightUpdates (extractAllCopyrightInfo content fp) th cy l cur f rf)).getD
        i [] =
      if 0 < u.info.prefixIndex ∧
          u.info.prefixIndex < ((splitLines content).getD i []).length then
        ((splitLines content).getD i []).take u.info.prefixIndex ++ newCopyrightText u
      else newCopyrightText u) ∧
    (0 < u.info.prefixIndex → u.info.prefixIndex < ((splitLines content).getD i []).length →
      (((applyUpdates (splitLines content)
          (evaluateCopyrightUpdates (extractAllCopyrightInfo content fp) th cy l cur f rf)).getD
          i []).take u.info.prefixIndex =
        ((splitLines content).getD i []).take u.info.prefixIndex)) := by
  have hpw := evaluate_pairwise (extractAllCopyrightInfo content fp) th cy l cur rf f
    (extractAll_pairwise content fp)
  have hmain := applyUpdates_getD_target (splitLines content) _ i u hpw hmem hln hi
  refine ⟨hmain, ?_⟩
  intro hgt hlt
  rw [hmain, if_pos ⟨hgt, hlt⟩]
  exact List.take_left' (by
    rw [List.length_take]
    exact Nat.min_eq_left (Nat.le_of_lt hlt))

/-- Claim C3 (amended): the year field of every rewritten copyright fragment is
a single rendered year when `newStartYear = newEndYear` and
`"<start>, <end>"` otherwise; the engine performs no reordering of the pair
before rendering (and can render `start > end`, as the counterexample shows). -/
theorem C3_year_field_rendering (fp content th : List Char) (cy : Int) (f : Bool)
    (cur l rf : Int) (i : Nat) (u : PendingUpdate)
    (hmem : u ∈ evaluateCopyrightUpdates (extractAllCopyrightInfo content fp) th cy l cur f rf)
    (hln : u.info.lineNumber = i + 1) (hi : i < (splitLines content).length) :
    (applyUpdates (splitLines content)
        (evaluateCopyrightUpdates (extractAllCopyrightInfo content fp) th cy l cur f rf)).getD
        i [] =
      (if 0 < u.info.prefixIndex ∧
          u.info.prefixIndex < ((splitLines content).getD i []).length then
        ((splitLines content).getD i []).take u.info.prefixIndex
      else []) ++
      (u.info.prefixStr ++ "Copyright ".toList ++ u.info.holder ++ " ".toList ++
        (if u.newStartYear = u.newEndYear then intToStr u.newEndYear
         else intToStr u.newStartYear ++ ", ".toList ++ intToStr u.newEndYear) ++
        u.info.trailingText) := by
  have hpw := evaluate_pairwise (extractAllCopyrightInfo content fp) th cy l cur rf f
    (extractAll_pairwise content fp)
  have hmain := applyUpdates_getD_target (splitLines content) _ i u hpw hmem hln hi
  rw [hmain]
  unfold newCopyrightText renderYearStr
  split_ifs <;> simp [List.append_assoc]

/-- Claim C5 (amended): whenever a parsed line's `afterCopyright` text has at
least two four-digit year runs and the parsed start year is nonzero, the
holder is the trimmed text before the second-to-last run — regardless of
whether the separator test between the last two runs succeeded — so the text
between the second-to-last and last runs is not part of the holder (and is
dropped by a rewrite when the separator test fails). -/
theorem C5_holder_before_second_to_last (line fp : List Char) (n : Nat) (info : CopyrightInfo)
    (hp : parseCopyrightLine line n fp = some info)
    (h2 : 2 ≤ (runsOfFour (afterCopyrightOf line fp)).length)
    (hnz : info.startYear ≠ 0) :
    info.holder = trimSpace ((afterCopyrightOf line fp).take
      ((runsOfFour (afterCopyrightOf line fp)).getD
        ((runsOfFour (afterCopyrightOf line fp)).length - 2) 0)) := by
  unfold parseCopyrightLine at hp
  rcases hr : resolvePfx line fp with _ | ⟨pfx, ps, c0⟩
  · rw [hr] at hp
    exact absurd hp (by simp)
  · rw [hr] at hp
    dsimp only at hp
    have hac : afterCopyrightOf line fp = trimSpace (stripCopyrightToken (trimSpace c0)) := by
      unfold afterCopyrightOf
      rw [hr]
    generalize hs : startsWithCopyrightWord (trimSpace c0) = b at hp
    cases b with
    | false =>
      simp only [Bool.not_false, eq_self_iff_true, if_true] at hp
      exact absurd hp (by simp)
    | true =>
      simp only [Bool.not_true, Bool.false_eq_true, if_false] at hp
      have he := Option.some.inj hp
      rw [hac] at h2 ⊢
      rw [← he] at hnz ⊢
      clear he hp
      unfold mkInfoFromYears at hnz ⊢
      have hne : ¬(runsOfFour (trimSpace (stripCopyrightToken (trimSpace c0))) = []) := by
        intro hcon
        rw [hcon] at h2
        simp at h2
      rw [if_neg hne] at hnz ⊢
      dsimp only at hnz ⊢
      rw [if_pos ⟨h2, hnz⟩]

theorem C2_holder_isolation_witness :
    (parseCopyrightLine
        (dropCR ((scannerLines
          "// Copyright Other Co. 2010\n// Copyright IBM Corp. 2020".toList).getD 0 []))
        1 "main.go".toList =
      some ⟨1, "// Copyright Other Co. 2010".toList, "Other Co.".toList, 2010, 2010,
            "// ".toList, [], 0⟩) ∧
    (containsSub (toLowerStr "Other Co.".toList) (toLowerStr "IBM".toList) = false) ∧
    ((applyUpdates
        (splitLines "// Copyright Other Co. 2010\n// Copyright IBM Corp. 2020".toList)
        (evaluateCopyrightUpdates
          (extractAllCopyrightInfo
            "// Copyright Other Co. 2010\n// Copyright IBM Corp. 2020".toList
            "main.go".toList)
          "IBM".toList 0 0 2026 true 0)).getD 0 [] =
      (splitLines "// Copyright Other Co. 2010\n// Copyright IBM Corp. 2020".toList).getD 0 []) :=
  ⟨by decide, by decide,
   (C2_holder_isolation "main.go".toList
      "// Copyright Other Co. 2010\n// Copyright IBM Corp. 2020".toList
      "IBM".toList 0 true 2026 0 0 0
      ⟨1, "// Copyright Other Co. 2010".toList, "Other Co.".toList, 2010, 2010,
       "// ".toList, [], 0⟩
      (by decide) (by decide)).1⟩

theorem C6_inline_preservation_witness :
    (⟨⟨1, "code() // Copyright IBM Corp. 2020".toList, "IBM Corp.".toList, 2020, 2020,
       " // ".toList, [], 6⟩, 2020, 2026⟩ ∈
      evaluateCopyrightUpdates
        (extractAllCopyrightInfo "code() // Copyright IBM Corp. 2020".toList "main.go".toList)
        "IBM".toList 0 0 2026 true 0) ∧
    (((applyUpdates (splitLines "code() // Copyright IBM Corp. 2020".toList)
        (evaluateCopyrightUpdates
          (extractAllCopyrightInfo "code() // Copyright IBM Corp. 2020".toList "main.go".toList)
          "IBM".toList 0 0 2026 true 0)).getD 0 []).take 6 =
      (("code() // Copyright IBM Corp. 2020".toList).take 6)) :=
  ⟨by decide,
   (C6_inline_preservation "main.go".toList "code() // Copyright IBM Corp. 2020".toList
      "IBM".toList 0 true 2026 0 0 0
      ⟨⟨1, "code() // Copyright IBM Corp. 2020".toList, "IBM Corp.".toList, 2020, 2020,
        " // ".toList, [], 6⟩, 2020, 2026⟩
      (by decide) (by decide) (by decide)).2 (by decide) (by decide)⟩

theorem C3_year_field_rendering_witness :
    (⟨⟨1, "// Copyright IBM Corp. 2014, 2020".toList, "IBM Corp.".toList, 2014, 2020,
       "// ".toList, [], 0⟩, 2014, 2026⟩ ∈
      evaluateCopyrightUpdates
        (extractAllCopyrightInfo "// Copyright IBM Corp. 2014, 2020".toList "main.go".toList)
        "IBM Corp.".toList 2014 2025 2026 false 0) ∧
    ((applyUpdates (splitLines "// Copyright IBM Corp. 2014, 2020".toList)
        (evaluateCopyrightUpdates
          (extractAllCopyrightInfo "// Copyright IBM Corp. 2014, 2020".toList "main.go".toList)
          "IBM Corp.".toList 2014 2025 2026 false 0)).getD 0 [] =
      [] ++ ("// ".toList ++ "Copyright ".toList ++ "IBM Corp.".toList ++ " ".toList ++
        (intToStr 2014 ++ ", ".toList ++ intToStr 2026) ++ [])) :=
  ⟨by decide,
   by
    have h := C3_year_field_rendering "main.go".toList
      "// Copyright IBM Corp. 2014, 2020".toList "IBM Corp.".toList 2014 false 2026 2025 0 0
      ⟨⟨1, "// Copyright IBM Corp. 2014, 2020".toList, "IBM Corp.".toList, 2014, 2020,
        "// ".toList, [], 0⟩, 2014, 2026⟩
      (by decide) (by decide) (by decide)
    rw [h]
    decide⟩

theorem C5_holder_before_second_to_last_witness :
    (2 ≤ (runsOfFour (afterCopyrightOf "// Copyright IBM 1111 foo 2020".toList
        "main.go".toList)).length) ∧
    ((⟨1, "// Copyright IBM 1111 foo 2020".toList, "IBM".toList, 2020, 2020,
       "// ".toList, [], 0⟩ : CopyrightInfo).startYear ≠ 0) ∧
    ((⟨1, "// Copyright IBM 1111 foo 2020".toList, "IBM".toList, 2020, 2020,
       "// ".toList, [], 0⟩ : CopyrightInfo).holder =
      trimSpace ((afterCopyrightOf "// Copyright IBM 1111 foo 2020".toList "main.go".toList).take
        ((runsOfFour (afterCopyrightOf "// Copyright IBM 1111 foo 2020".toList
            "main.go".toList)).getD
          ((runsOfFour (afterCopyrightOf "// Copyright IBM 1111 foo 2020".toList
              "main.go".toList)).length - 2) 0))) :=
  ⟨by decide, by decide,
   C5_holder_before_second_to_last "// Copyright IBM 1111 foo 2020".toList "main.go".toList 1
     ⟨1, "// Copyright IBM 1111 foo 2020".toList, "IBM".toList, 2020, 2020,
      "// ".toList, [], 0⟩
     (by decide) (by decide) (by decide)⟩

end Copywrite
